import Mathlib

/-!
Verification of the `ie` repository (IELTS listening audio generator).

The development shallowly embeds the two algorithmic cores of the repository:

* the WAV container encoder of `src/ielts-listening-generator/utils/audioUtils.ts`
  (`createWavFile`, `createWavFileDataUrl`), modelled on byte lists (`List Nat`,
  each produced byte reduced mod 256 exactly as a JS `DataView` write does) with
  the trailing-silence duration modelled as an exact rational; and

* the voice-assignment resolver of the service module (`parseGenders`,
  `generateSpeech`), including the speaker-label regex scan
  `/^([a-zA-Z0-9\s]+):/gm`, JS `String.prototype.trim`, `parseInt`, insertion
  ordered `Set` deduplication, and the gender keyword loop.

JS platform builtins (`DataView` writes, regex matching, `trim`, `parseInt`,
`toLowerCase`/`normalize("NFD")`) are embedded by their ECMAScript semantics;
the Unicode NFD decomposition table is restricted to the Vietnamese letters the
application's hints use (identity elsewhere), which is inessential: every
theorem below either quantifies over the already-normalized data or evaluates
ASCII inputs.
-/

namespace Ie

/-- Little-endian 2-byte encoding, exactly the bytes a JS `DataView.setUint16`
with `littleEndian = true` stores (the value is implicitly reduced mod 2^16). -/
def leEnc2 (n : Nat) : List Nat := [n % 256, n / 256 % 256]

/-- Little-endian 4-byte encoding, exactly the bytes a JS `DataView.setUint32`
with `littleEndian = true` stores (the value is implicitly reduced mod 2^32). -/
def leEnc4 (n : Nat) : List Nat :=
  [n % 256, n / 256 % 256, n / 65536 % 256, n / 16777216 % 256]

/-- `writeString` of `audioUtils.ts`: each UTF-16 character code written as one
byte by `setUint8` (which reduces mod 256). -/
def writeString (s : String) : List Nat := s.toList.map (fun c => c.toNat % 256)

/-- `createWavFile` of `audioUtils.ts` lines 37-77: the 44-byte RIFF/WAVE
header at its fixed offsets followed by the PCM payload.  Byte layout follows
the sequence of `writeString`/`setUint32`/`setUint16` calls of the source
(offsets 0,4,8,12,16,20,22,24,28,32,34,36,40, then the payload at 44). -/
def createWavFile (pcmData : List Nat)
    (sampleRate numChannels bitsPerSample : Nat) : List Nat :=
  let dataSize := pcmData.length
  let fileSize := dataSize + 44
  let byteRate := sampleRate * numChannels * (bitsPerSample / 8)
  let blockAlign := numChannels * (bitsPerSample / 8)
  writeString "RIFF" ++ leEnc4 (fileSize - 8) ++ writeString "WAVE" ++
    writeString "fmt " ++ leEnc4 16 ++ leEnc2 1 ++ leEnc2 numChannels ++
    leEnc4 sampleRate ++ leEnc4 byteRate ++ leEnc2 blockAlign ++
    leEnc2 bitsPerSample ++ writeString "data" ++ leEnc4 dataSize ++ pcmData

/-- The trailing-silence stage of `createWavFileDataUrl` (`audioUtils.ts`
lines 87-107): at the fixed Gemini TTS format (24000 Hz, mono, 16-bit), if the
requested duration is positive, `Math.floor(seconds * sampleRate)` silence
samples are appended as zero bytes.  The seconds value is modelled as an exact
rational, so `Math.floor` is the rational floor. -/
def appendSilence (pcmData : List Nat) (trailingSilenceSeconds : ℚ) : List Nat :=
  let sampleRate : Nat := 24000
  let numChannels : Nat := 1
  let bitsPerSample : Nat := 16
  if 0 < trailingSilenceSeconds then
    let bytesPerSample := bitsPerSample / 8
    let numSilenceSamples : Int := ⌊trailingSilenceSeconds * (sampleRate : ℚ)⌋
    let silenceBytesCount : Int :=
      numSilenceSamples * (numChannels : Int) * (bytesPerSample : Int)
    if 0 < silenceBytesCount then
      pcmData ++ List.replicate silenceBytesCount.toNat 0
    else pcmData
  else pcmData

/-- `createWavFileDataUrl` of `audioUtils.ts` lines 87-114, modelled on the
already base64-decoded byte buffer (the base64 transport encodes the byte list
bijectively and is not part of any claim): append the requested silence, then
frame with `createWavFile` at 24000 Hz, 1 channel, 16 bits per sample. -/
def createWavFileBytes (pcmData : List Nat) (trailingSilenceSeconds : ℚ) : List Nat :=
  createWavFile (appendSilence pcmData trailingSilenceSeconds) 24000 1 16

theorem appendSilence_eq (pcmData : List Nat) (d : ℚ) (hd : 0 ≤ d) :
    appendSilence pcmData d
      = pcmData ++ List.replicate ((⌊d * 24000⌋).toNat * 1 * 2) 0 := by
  unfold appendSilence
  by_cases h0 : (0 : ℚ) < d
  · rw [if_pos h0]
    have hf : (0 : Int) ≤ ⌊d * ((24000 : Nat) : ℚ)⌋ := by
      apply Int.floor_nonneg.mpr
      positivity
    have h28 : ((16 : Nat) / 8 : Nat) = 2 := by norm_num
    by_cases hc : (0 : Int) < ⌊d * ((24000 : Nat) : ℚ)⌋ * ((1 : Nat) : Int) *
        (((16 : Nat) / 8 : Nat) : Int)
    · rw [if_pos hc]
      have : (⌊d * ((24000 : Nat) : ℚ)⌋ * ((1 : Nat) : Int) *
          (((16 : Nat) / 8 : Nat) : Int)).toNat
          = (⌊d * ((24000 : Nat) : ℚ)⌋).toNat * 1 * 2 := by
        rw [h28]
        omega
      rw [this]
      norm_num
    · rw [if_neg hc]
      rw [h28] at hc
      have hz : ⌊d * ((24000 : Nat) : ℚ)⌋ = 0 := by omega
      rw [show ((24000 : Nat) : ℚ) = (24000 : ℚ) by norm_num] at hz
      rw [hz]
      simp
  · have hd0 : d = 0 := le_antisymm (not_lt.mp h0) hd
    rw [if_neg h0, hd0]
    norm_num

theorem createWavFile_drop44 (q : List Nat) (sr nc bps : Nat) :
    (createWavFile q sr nc bps).drop 44 = q := rfl

theorem createWavFile_length (q : List Nat) (sr nc bps : Nat) :
    (createWavFile q sr nc bps).length = q.length + 44 := rfl

set_option maxHeartbeats 1600000 in
/-- C1: for every PCM buffer and valid format parameters, the encoder output is
exactly the 44-byte header followed by the payload, and the header stores, at
the fixed offsets, the `RIFF` tag, the little-endian total-size-minus-8, the
`WAVE` and `fmt ` tags, sub-chunk length 16, format code 1, channel count,
sample rate, byte rate `sampleRate * channels * (bitsPerSample/8)`, block
alignment `channels * (bitsPerSample/8)`, bits per sample, the `data` tag and
the little-endian payload length. -/
theorem c1_wav_header (pcmData : List Nat) (sampleRate numChannels bitsPerSample : Nat)
    (hbps : 8 ∣ bitsPerSample) (hnc : numChannels < 65536)
    (hbits : bitsPerSample < 65536) (hsr : sampleRate < 4294967296)
    (hbr : sampleRate * numChannels * (bitsPerSample / 8) < 4294967296)
    (hlen : pcmData.length + 36 < 4294967296) :
    (createWavFile pcmData sampleRate numChannels bitsPerSample).length
        = 44 + pcmData.length
  ∧ (createWavFile pcmData sampleRate numChannels bitsPerSample).take 4
        = writeString "RIFF"
  ∧ ((createWavFile pcmData sampleRate numChannels bitsPerSample).drop 4).take 4
        = leEnc4 (pcmData.length + 36)
  ∧ ((createWavFile pcmData sampleRate numChannels bitsPerSample).drop 8).take 4
        = writeString "WAVE"
  ∧ ((createWavFile pcmData sampleRate numChannels bitsPerSample).drop 12).take 4
        = writeString "fmt "
  ∧ ((createWavFile pcmData sampleRate numChannels bitsPerSample).drop 16).take 4
        = leEnc4 16
  ∧ ((createWavFile pcmData sampleRate numChannels bitsPerSample).drop 20).take 2
        = leEnc2 1
  ∧ ((createWavFile pcmData sampleRate numChannels bitsPerSample).drop 22).take 2
        = leEnc2 numChannels
  ∧ ((createWavFile pcmData sampleRate numChannels bitsPerSample).drop 24).take 4
        = leEnc4 sampleRate
  ∧ ((createWavFile pcmData sampleRate numChannels bitsPerSample).drop 28).take 4
        = leEnc4 (sampleRate * numChannels * (bitsPerSample / 8))
  ∧ ((createWavFile pcmData sampleRate numChannels bitsPerSample).drop 32).take 2
        = leEnc2 (numChannels * (bitsPerSample / 8))
  ∧ ((createWavFile pcmData sampleRate numChannels bitsPerSample).drop 34).take 2
        = leEnc2 bitsPerSample
  ∧ ((createWavFile pcmData sampleRate numChannels bitsPerSample).drop 36).take 4
        = writeString "data"
  ∧ ((createWavFile pcmData sampleRate numChannels bitsPerSample).drop 40).take 4
        = leEnc4 pcmData.length := by
  refine ⟨?_, rfl, rfl, rfl, rfl, rfl, rfl, rfl, rfl, rfl, rfl, rfl, rfl, rfl⟩
  have h := createWavFile_length pcmData sampleRate numChannels bitsPerSample
  omega

theorem c1_wav_header_witness :
    (createWavFile [1, 2] 24000 1 16).length = 46 := by
  have h := (c1_wav_header [1, 2] 24000 1 16 (by norm_num) (by norm_num)
    (by norm_num) (by norm_num) (by norm_num) (by norm_num)).1
  simpa using h

/-- C2: for every PCM buffer and every silence duration `d ≥ 0`, the encoded
payload (bytes from offset 44 on) is the input followed by exactly
`⌊d * 24000⌋ * 1 * 2` zero bytes; in particular `d = 0` and `d = 0.00001`
append nothing, and `d = 0.5` appends 24000 zero bytes. -/
theorem c2_payload (pcmData : List Nat) (d : ℚ) (hd : 0 ≤ d) :
    (createWavFileBytes pcmData d).drop 44
        = pcmData ++ List.replicate ((⌊d * 24000⌋).toNat * 1 * 2) 0
  ∧ (createWavFileBytes pcmData 0).drop 44 = pcmData
  ∧ (createWavFileBytes pcmData (1 / 2)).drop 44
        = pcmData ++ List.replicate 24000 0
  ∧ (createWavFileBytes pcmData (1 / 100000)).drop 44 = pcmData := by
  have key : ∀ e : ℚ, 0 ≤ e → (createWavFileBytes pcmData e).drop 44
      = pcmData ++ List.replicate ((⌊e * 24000⌋).toNat * 1 * 2) 0 := by
    intro e he
    unfold createWavFileBytes
    rw [createWavFile_drop44]
    exact appendSilence_eq pcmData e he
  refine ⟨key d hd, ?_, ?_, ?_⟩
  · rw [key 0 le_rfl]
    norm_num
  · rw [key (1 / 2) (by norm_num)]
    have : ⌊(1 / 2 : ℚ) * 24000⌋ = 12000 := by
      rw [show (1 / 2 : ℚ) * 24000 = ((12000 : Int) : ℚ) by norm_num]
      exact Int.floor_intCast 12000
    rw [this]
    norm_num
    decide
  · rw [key (1 / 100000) (by norm_num)]
    have : ⌊(1 / 100000 : ℚ) * 24000⌋ = 0 := by
      have h1 : (1 / 100000 : ℚ) * 24000 = 6 / 25 := by norm_num
      rw [h1]
      apply Int.floor_eq_zero_iff.mpr
      constructor <;> norm_num
    rw [this]
    norm_num

theorem c2_payload_witness :
    (createWavFileBytes [5] (1 / 2)).drop 44 = [5] ++ List.replicate 24000 0 :=
  (c2_payload [5] (1 / 2) (by norm_num)).2.2.1

/-- C8: the encoder is total — for every byte buffer (of any length, aligned to
the 2-byte block size or not) and every non-negative duration it produces an
output whose length is `44 + input length + appended silence bytes`; the
embedded function has no error value, matching the absence of any throw or
validation in the source. -/
theorem c8_total (pcmData : List Nat) (d : ℚ) (hd : 0 ≤ d) :
    (createWavFileBytes pcmData d).length
      = 44 + pcmData.length + (⌊d * 24000⌋).toNat * 1 * 2 := by
  unfold createWavFileBytes
  rw [createWavFile_length, appendSilence_eq pcmData d hd]
  simp [List.length_append]
  omega

theorem c8_total_witness :
    (createWavFileBytes [1, 2, 3] 0).length = 47 := by
  have h := c8_total [1, 2, 3] 0 le_rfl
  simpa using h

/-! Voice-assignment resolver of the service module (`src/unnamed/part_000`,
lines 208-342). -/

/-- The ECMAScript WhiteSpace and LineTerminator characters, the set matched
by the regex class `\s` and stripped by `String.prototype.trim`. -/
def wsChars : List Char :=
  [' ', '\t', '\n', '\u000b', '\u000c', '\r', ' ', ' ', ' ',
   ' ', ' ', ' ', ' ', ' ', ' ', ' ',
   ' ', ' ', ' ', ' ', ' ', ' ', ' ',
   '　', '﻿']

def isWsChar (c : Char) : Bool := decide (c ∈ wsChars)

/-- ECMAScript LineTerminator characters: in a multiline regex, `^` matches
right after any of these. -/
def isLineTerm (c : Char) : Bool :=
  c = '\n' || c = '\r' || c = ' ' || c = ' '

/-- The character class `[a-zA-Z0-9\s]` of the speaker-label regex. -/
def isLabelChar (c : Char) : Bool :=
  ('a' ≤ c && c ≤ 'z') || ('A' ≤ c && c ≤ 'Z') || ('0' ≤ c && c ≤ '9')
    || isWsChar c

/-- JS `String.prototype.trim`: strip whitespace from both ends. -/
def trimChars (l : List Char) : List Char :=
  ((l.dropWhile isWsChar).reverse.dropWhile isWsChar).reverse

/-- One attempt of the regex `^([a-zA-Z0-9\s]+):` at the current position
(the `^` anchor is checked by the caller): the greedy class run followed by a
colon; returns the matched text `label ++ ":"` if it succeeds.  Since `:` is
not in the class, greedy matching with backtracking succeeds exactly when the
maximal class run is non-empty and the next character is `:`. -/
def tryLabelMatch (s : List Char) : Option (List Char) :=
  let run := s.takeWhile isLabelChar
  match s.drop run.length with
  | ':' :: _ => if run.isEmpty then none else some (run ++ [':'])
  | _ => none

/-- Global scan of `script.match(/^([a-zA-Z0-9\s]+):/gm)`: walk the string,
attempting a match wherever `^` holds (start of input or right after a line
terminator), collecting matched substrings and resuming after each match.
`fuel` only bounds the recursion; it is called with the string length, which
suffices because every step consumes at least one character. -/
def scanAux : Nat → Bool → List Char → List (List Char)
  | 0, _, _ => []
  | _ + 1, _, [] => []
  | fuel + 1, atLineStart, c :: rest =>
    if atLineStart then
      match tryLabelMatch (c :: rest) with
      | some m => m :: scanAux fuel false ((c :: rest).drop m.length)
      | none => scanAux fuel (isLineTerm c) rest
    else scanAux fuel (isLineTerm c) rest

/-- All matches of the speaker-label regex over the script (empty list models
the `null` that JS `match` returns when nothing matches). -/
def labelMatches (script : String) : List (List Char) :=
  scanAux script.toList.length true script.toList

/-- Insertion-order construction step of `new Set(...)`: append an element
unless it is already present. -/
def insertIfNew {α : Type} [DecidableEq α] (acc : List α) (a : α) : List α :=
  if a ∈ acc then acc else acc ++ [a]

/-- `[...new Set(l)]`: deduplicate keeping the first occurrence of each
element, in insertion order. -/
def dedupFirst {α : Type} [DecidableEq α] (l : List α) : List α :=
  l.foldl insertIfNew []

/-- The distinct speaker labels of a script, line 289 of the service module:
`[...new Set(matches.map(s => s.slice(0, -1).trim()))]` — drop the trailing
colon of each match, trim, deduplicate in order of first appearance. -/
def speakersOf (script : String) : List (List Char) :=
  dedupFirst ((labelMatches script).map (fun m => trimChars m.dropLast))

/-- JS `String.prototype.toLowerCase` restricted to ASCII plus the Vietnamese
letters of the decomposition table below; identity on other characters. -/
def toLowerCh (c : Char) : Char :=
  if 'A' ≤ c && c ≤ 'Z' then Char.ofNat (c.toNat + 32)
  else match c with
    | 'Ư' => 'ư' | 'Ứ' => 'ứ' | 'Ừ' => 'ừ' | 'Ử' => 'ử' | 'Ữ' => 'ữ'
    | 'Ự' => 'ự' | 'Ú' => 'ú' | 'Ù' => 'ù' | 'Ủ' => 'ủ' | 'Ũ' => 'ũ'
    | 'Ụ' => 'ụ' | _ => c

/-- Unicode NFD decomposition (`String.prototype.normalize("NFD")`) restricted
to the lowercase Vietnamese u-family letters the application's gender hints use
("nữ" and unaccented variants); identity on every other character.  This
restriction is inessential to the claims: each theorem below either quantifies
over already-normalized data or evaluates ASCII inputs. -/
def nfdChar : Char → List Char
  | 'ư' => ['u', '̛']
  | 'ứ' => ['u', '̛', '́']
  | 'ừ' => ['u', '̛', '̀']
  | 'ử' => ['u', '̛', '̉']
  | 'ữ' => ['u', '̛', '̃']
  | 'ự' => ['u', '̛', '̣']
  | 'ú' => ['u', '́']
  | 'ù' => ['u', '̀']
  | 'ủ' => ['u', '̉']
  | 'ũ' => ['u', '̃']
  | 'ụ' => ['u', '̣']
  | c => [c]

/-- The combining-mark range U+0300 to U+036F removed by the normalization
regex replace. -/
def isCombiningMark (c : Char) : Bool := 0x300 ≤ c.toNat && c.toNat ≤ 0x36F

/-- `s.toLowerCase().normalize("NFD").replace(/[̀-ͯ]/g, "")`, the
normalization applied to gender hints (lines 231 and 269 of the service
module). -/
def normalize (s : String) : List Char :=
  ((s.toList.map toLowerCh).flatMap nfdChar).filter (fun c => !(isCombiningMark c))

/-- Splitting character of `split(/[\s,]+/)`: whitespace or comma. -/
def isSplitChar (c : Char) : Bool := isWsChar c || c = ','

/-- Accumulator-based splitter for `split(/[\s,]+/).filter(Boolean)`: maximal
runs of non-separator characters, empty pieces dropped. -/
def tokensAux : List Char → List Char → List (List Char)
  | [], cur => if cur.isEmpty then [] else [cur.reverse]
  | c :: rest, cur =>
    if isSplitChar c then
      if cur.isEmpty then tokensAux rest [] else cur.reverse :: tokensAux rest []
    else tokensAux rest (c :: cur)

/-- `normalizedString.split(/[\s,]+/).filter(Boolean)` of line 232. -/
def tokensOf (l : List Char) : List (List Char) := tokensAux l []

/-- Digit-prefix value used by `parseInt(part, 10)`: the longest leading run
of decimal digits, `none` when there is none (JS `NaN`). -/
def digitsVal (l : List Char) : Option Nat :=
  let ds := l.takeWhile (fun c => '0' ≤ c && c ≤ '9')
  if ds.isEmpty then none
  else some (ds.foldl (fun a c => a * 10 + (c.toNat - 48)) 0)

/-- JS `parseInt(part, 10)` on an already-trimmed non-empty token: optional
sign, then the longest decimal-digit prefix; `none` models `NaN`. -/
def parseIntTok (l : List Char) : Option Int :=
  match l with
  | [] => none
  | c :: rest =>
    if c = '+' then (digitsVal rest).map (fun n => (n : Int))
    else if c = '-' then (digitsVal rest).map (fun n => -(n : Int))
    else (digitsVal l).map (fun n => (n : Int))

inductive Gender
  | male
  | female
  deriving DecidableEq

/-- `part.startsWith('nam') || part.startsWith('man') || part.startsWith('men')`. -/
def isMaleTok (t : List Char) : Bool :=
  ("nam".toList.isPrefixOf t) || ("man".toList.isPrefixOf t)
    || ("men".toList.isPrefixOf t)

/-- `part.startsWith('nu') || part.startsWith('woman') || part.startsWith('women')`. -/
def isFemaleTok (t : List Char) : Bool :=
  ("nu".toList.isPrefixOf t) || ("woman".toList.isPrefixOf t)
    || ("women".toList.isPrefixOf t)

/-- Keyword branch of the `parseGenders` loop body: emit `currentCount` tags
and reset the count to 1, or leave the state unchanged for an unrecognized
token.  State is `(currentCount, genders pushed so far)`. -/
def pgStepKeyword (s : Nat × List Gender) (t : List Char) : Nat × List Gender :=
  if isMaleTok t then (1, s.2 ++ List.replicate s.1 Gender.male)
  else if isFemaleTok t then (1, s.2 ++ List.replicate s.1 Gender.female)
  else s

/-- One iteration of the `for (const part of parts)` loop of `parseGenders`
(lines 235-246): a token whose `parseInt` value is a positive integer sets
`currentCount`; otherwise the keyword branch runs. -/
def pgStep (s : Nat × List Gender) (t : List Char) : Nat × List Gender :=
  match parseIntTok t with
  | some n => if 0 < n then (n.toNat, s.2) else pgStepKeyword s t
  | none => pgStepKeyword s t

/-- `parseGenders` of the service module, lines 225-248. -/
def parseGenders (genderString : String) : List Gender :=
  if trimChars genderString.toList = [] then []
  else ((tokensOf (normalize genderString)).foldl pgStep (1, [])).2

def MALE_VOICES : List String := ["Puck", "Charon", "Fenrir"]

def FEMALE_VOICES : List String := ["Kore", "Zephyr"]

/-- JS `String.prototype.includes`: substring containment. -/
def containsSub (hay needle : List Char) : Bool :=
  hay.tails.any (fun t => needle.isPrefixOf t)

/-- The single-speaker branch of `generateSpeech` (lines 267-275): default
female voice `Kore`, switched to the default male voice `Puck` when the
normalized hint contains `"nam"` or `"man"` as a substring. -/
def resolveSingleVoice (voiceGenders : String) : String :=
  let normalizedGenders := normalize voiceGenders
  if containsSub normalizedGenders "nam".toList
      || containsSub normalizedGenders "man".toList then "Puck"
  else "Kore"

/-- The `speakers.map((speaker, index) => ...)` loop of lines 303-319: walk the
speakers in order with the per-gender rotating indices `maleVoiceIndex` and
`femaleVoiceIndex`; a missing gender entry (JS `undefined`) is not `'male'` and
therefore takes the female branch, matching `gs.getD idx Gender.female`. -/
def assignLoop : List (List Char) → List Gender → Nat → Nat → Nat →
    List (List Char × String)
  | [], _, _, _, _ => []
  | speaker :: rest, gs, idx, maleVoiceIndex, femaleVoiceIndex =>
    let gender := if 0 < gs.length then gs.getD idx Gender.female
                  else if idx = 0 then Gender.male else Gender.female
    if gender = Gender.male then
      (speaker, MALE_VOICES.getD (maleVoiceIndex % MALE_VOICES.length) "") ::
        assignLoop rest gs (idx + 1) (maleVoiceIndex + 1) femaleVoiceIndex
    else
      (speaker, FEMALE_VOICES.getD (femaleVoiceIndex % FEMALE_VOICES.length) "") ::
        assignLoop rest gs (idx + 1) maleVoiceIndex (femaleVoiceIndex + 1)

/-- The error kinds of the specification's section 7, one per `throw` site of
`generateSpeech` (the source throws Vietnamese message strings; only the kind
is relevant to the claims). -/
inductive SpeechError
  | MissingSpeakerLabels
  | SpeakerCountMismatch
  | GenderCountMismatch
  | UnsupportedVoiceCount
  deriving DecidableEq

/-- The speech configuration `generateSpeech` builds for the API call: a
single prebuilt voice, or one `(speaker, voiceName)` pair per speaker. -/
inductive SpeechConfig
  | single (voiceName : String)
  | multi (speakerVoiceConfigs : List (List Char × String))
  deriving DecidableEq

/-- Result of `generateSpeech`: a configuration, or one of the typed errors. -/
inductive SpeechResult
  | ok (config : SpeechConfig)
  | err (e : SpeechError)
  deriving DecidableEq

/-- `generateSpeech` of the service module (lines 251-322) up to the point the
remote API is called: the voice-resolution logic, with each `throw` mapped to
its error kind.  `numVoices` is the integer the UI has already parsed. -/
def generateSpeech (script : String) (numVoices : Int) (voiceGenders : String) :
    SpeechResult :=
  if numVoices ≤ 1 then
    SpeechResult.ok (SpeechConfig.single (resolveSingleVoice voiceGenders))
  else if numVoices ≠ 2 then
    SpeechResult.err SpeechError.UnsupportedVoiceCount
  else if labelMatches script = [] then
    SpeechResult.err SpeechError.MissingSpeakerLabels
  else if (speakersOf script).length ≠ 2 then
    SpeechResult.err SpeechError.SpeakerCountMismatch
  else if 0 < (parseGenders voiceGenders).length
      ∧ (parseGenders voiceGenders).length ≠ 2 then
    SpeechResult.err SpeechError.GenderCountMismatch
  else
    SpeechResult.ok (SpeechConfig.multi
      (assignLoop (speakersOf script) (parseGenders voiceGenders) 0 0 0))

/-- The speaker-count guard of `handleGenerateAudio` (`App.tsx` lines 25-34):
the UI rejects a parsed count below 1 or above 2 before calling
`generateSpeech`. -/
def handleGuardRejects (parsedNumVoices : Int) : Bool :=
  parsedNumVoices < 1 || 2 < parsedNumVoices

/-! Helper lemmas about the embedded primitives. -/

theorem containsSub_iff (hay needle : List Char) :
    containsSub hay needle = true ↔ needle <:+: hay := by
  unfold containsSub
  rw [List.any_eq_true]
  constructor
  · rintro ⟨t, ht, hp⟩
    rw [List.mem_tails] at ht
    rw [List.isPrefixOf_iff_prefix] at hp
    exact List.infix_iff_prefix_suffix.mpr ⟨t, hp, ht⟩
  · intro h
    rcases List.infix_iff_prefix_suffix.mp h with ⟨t, hp, ht⟩
    exact ⟨t, (List.mem_tails t hay).mpr ht, List.isPrefixOf_iff_prefix.mpr hp⟩

/-- Positive-integer reading of a token, as the specification words it: the
value is the one `parseInt` produces, kept only when positive. -/
def specPosIntTok (t : List Char) : Option Nat :=
  match parseIntTok t with
  | some n => if 0 < n then some n.toNat else none
  | none => none

/-- The gender-phrase grammar exactly as the specification states it: a
running count starts at 1; a token parsing as a positive integer sets the
count without emitting; a token starting with a male prefix emits that many
`male` tags and resets the count to 1; a female-prefix token does the same
with `female`; every other token is ignored and leaves the count unchanged. -/
def specGenderGrammar : Nat → List (List Char) → List Gender
  | _, [] => []
  | count, t :: rest =>
    match specPosIntTok t with
    | some n => specGenderGrammar n rest
    | none =>
      if isMaleTok t then
        List.replicate count Gender.male ++ specGenderGrammar 1 rest
      else if isFemaleTok t then
        List.replicate count Gender.female ++ specGenderGrammar 1 rest
      else specGenderGrammar count rest

theorem foldl_pgStep_keyword (t : List Char) (rest : List (List Char))
    (cnt : Nat) (acc : List Gender)
    (hs : specPosIntTok t = none)
    (ih : ∀ (c : Nat) (a : List Gender),
      (rest.foldl pgStep (c, a)).2 = a ++ specGenderGrammar c rest) :
    (rest.foldl pgStep (pgStepKeyword (cnt, acc) t)).2
      = acc ++ specGenderGrammar cnt (t :: rest) := by
  have hr : specGenderGrammar cnt (t :: rest)
      = if isMaleTok t then
          List.replicate cnt Gender.male ++ specGenderGrammar 1 rest
        else if isFemaleTok t then
          List.replicate cnt Gender.female ++ specGenderGrammar 1 rest
        else specGenderGrammar cnt rest := by
    simp only [specGenderGrammar]
    rw [hs]
  rw [hr]
  unfold pgStepKeyword
  by_cases hm : isMaleTok t
  · simp only [hm, if_true]
    rw [ih 1 (acc ++ List.replicate cnt Gender.male), List.append_assoc]
  · by_cases hf : isFemaleTok t
    · simp only [hm, hf, if_false, if_true, Bool.false_eq_true]
      rw [ih 1 (acc ++ List.replicate cnt Gender.female), List.append_assoc]
    · simp only [hm, hf, if_false, Bool.false_eq_true]
      exact ih cnt acc

theorem foldl_pgStep_eq (toks : List (List Char)) :
    ∀ (cnt : Nat) (acc : List Gender),
      (toks.foldl pgStep (cnt, acc)).2 = acc ++ specGenderGrammar cnt toks := by
  induction toks with
  | nil => intro cnt acc; simp [specGenderGrammar]
  | cons t rest ih =>
    intro cnt acc
    rw [List.foldl_cons]
    cases hp : parseIntTok t with
    | none =>
      have hs : specPosIntTok t = none := by simp [specPosIntTok, hp]
      have hpg : pgStep (cnt, acc) t = pgStepKeyword (cnt, acc) t := by
        simp [pgStep, hp]
      rw [hpg]
      exact foldl_pgStep_keyword t rest cnt acc hs ih
    | some n =>
      by_cases hn : 0 < n
      · have hs : specPosIntTok t = some n.toNat := by
          simp [specPosIntTok, hp, hn]
        have hpg : pgStep (cnt, acc) t = (n.toNat, acc) := by
          simp [pgStep, hp, hn]
        rw [hpg]
        have hr : specGenderGrammar cnt (t :: rest)
            = specGenderGrammar n.toNat rest := by
          simp only [specGenderGrammar]
          rw [hs]
        rw [hr]
        exact ih n.toNat acc
      · have hs : specPosIntTok t = none := by simp [specPosIntTok, hp, hn]
        have hpg : pgStep (cnt, acc) t = pgStepKeyword (cnt, acc) t := by
          simp [pgStep, hp, hn]
        rw [hpg]
        exact foldl_pgStep_keyword t rest cnt acc hs ih

theorem wsChar_normalize_fixed (c : Char) (h : isWsChar c = true) :
    toLowerCh c = c ∧ nfdChar c = [c] ∧ isCombiningMark c = false
      ∧ isSplitChar c = true := by
  have hc : c ∈ wsChars := of_decide_eq_true h
  fin_cases hc <;> decide

theorem trim_empty_all_ws (l : List Char) (h : trimChars l = []) :
    ∀ c ∈ l, isWsChar c = true := by
  unfold trimChars at h
  rw [List.reverse_eq_nil_iff, List.dropWhile_eq_nil_iff] at h
  intro c hc
  rw [← List.takeWhile_append_dropWhile (p := isWsChar) (l := l)] at hc
  rcases List.mem_append.mp hc with h1 | h2
  · exact List.mem_takeWhile_imp h1
  · exact h c (List.mem_reverse.mpr h2)

theorem tokensAux_all_split (l : List Char)
    (h : ∀ c ∈ l, isSplitChar c = true) : tokensAux l [] = [] := by
  induction l with
  | nil => rfl
  | cons c rest ih =>
    have hc := h c (List.mem_cons_self c rest)
    have hr : ∀ x ∈ rest, isSplitChar x = true :=
      fun x hx => h x (List.mem_cons_of_mem c hx)
    simp only [tokensAux, hc, if_true, List.isEmpty_nil]
    exact ih hr

theorem normalize_all_ws (s : String) (h : ∀ c ∈ s.toList, isWsChar c = true) :
    ∀ c ∈ normalize s, isSplitChar c = true := by
  intro c hc
  unfold normalize at hc
  rw [List.mem_filter] at hc
  rcases hc with ⟨hc, _⟩
  rw [List.mem_flatMap] at hc
  rcases hc with ⟨c0, hc0, hcc⟩
  rw [List.mem_map] at hc0
  rcases hc0 with ⟨c1, hc1, hlow⟩
  have hw := wsChar_normalize_fixed c1 (h c1 hc1)
  rw [← hlow, hw.1, hw.2.1, List.mem_singleton] at hcc
  subst hcc
  exact hw.2.2.2

theorem parseGenders_eq (s : String) :
    parseGenders s = specGenderGrammar 1 (tokensOf (normalize s)) := by
  unfold parseGenders
  by_cases h : trimChars s.toList = []
  · rw [if_pos h]
    have ht : tokensOf (normalize s) = [] := by
      unfold tokensOf
      exact tokensAux_all_split _ (normalize_all_ws s (trim_empty_all_ws _ h))
    rw [ht]
    rfl
  · rw [if_neg h]
    rw [foldl_pgStep_eq]
    simp

theorem dropWhile_head_false {α : Type} (p : α → Bool) :
    ∀ (l : List α) (c : α) (rest : List α),
      l.dropWhile p = c :: rest → p c = false := by
  intro l
  induction l with
  | nil => intro c rest h; simp at h
  | cons a l ih =>
    intro c rest h
    rw [List.dropWhile_cons] at h
    by_cases hp : p a = true
    · rw [if_pos hp] at h
      exact ih c rest h
    · rw [if_neg hp] at h
      injection h with h1 _
      rw [← h1]
      exact Bool.not_eq_true _ |>.mp hp |> fun hx => by
        cases hb : p a
        · rfl
        · exact absurd hb hp

theorem dropWhile_idem {α : Type} (p : α → Bool) (l : List α) :
    (l.dropWhile p).dropWhile p = l.dropWhile p := by
  cases h : l.dropWhile p with
  | nil => rfl
  | cons c rest =>
    have hc := dropWhile_head_false p l c rest h
    simp [List.dropWhile_cons, hc]

theorem dropWhile_getLast? {α : Type} (p : α → Bool) (l : List α)
    (h : l.dropWhile p ≠ []) : (l.dropWhile p).getLast? = l.getLast? := by
  induction l with
  | nil => simp at h
  | cons a l ih =>
    rw [List.dropWhile_cons] at h ⊢
    by_cases hp : p a = true
    · rw [if_pos hp] at h ⊢
      rw [ih h]
      cases hl : l with
      | nil =>
        rw [hl] at h
        simp at h
      | cons b m => simp
    · rw [if_neg hp]

theorem trimChars_idem (l : List Char) : trimChars (trimChars l) = trimChars l := by
  have hA : trimChars l
      = ((l.dropWhile isWsChar).reverse.dropWhile isWsChar).reverse := rfl
  have h1 : (trimChars l).dropWhile isWsChar = trimChars l := by
    cases hc : trimChars l with
    | nil => simp
    | cons c rest =>
      have hBne : (l.dropWhile isWsChar).reverse.dropWhile isWsChar ≠ [] := by
        intro h0
        rw [hA, h0] at hc
        simp at hc
      have hhd : (trimChars l).head? = some c := by rw [hc]; rfl
      rw [hA, List.head?_reverse] at hhd
      rw [dropWhile_getLast? _ _ hBne, List.getLast?_reverse] at hhd
      have hAc : ∃ rest2, l.dropWhile isWsChar = c :: rest2 := by
        cases hA2 : l.dropWhile isWsChar with
        | nil =>
          rw [hA2] at hhd
          simp at hhd
        | cons x xs =>
          rw [hA2] at hhd
          simp at hhd
          exact ⟨xs, by rw [hhd]⟩
      rcases hAc with ⟨rest2, hAc⟩
      have hw : isWsChar c = false := dropWhile_head_false isWsChar l c rest2 hAc
      rw [hc] at *
      simp [List.dropWhile_cons, hw]
  have hstep : trimChars (trimChars l)
      = (((trimChars l).dropWhile isWsChar).reverse.dropWhile isWsChar).reverse := rfl
  rw [hstep, h1]
  have h2 : (trimChars l).reverse.dropWhile isWsChar = (trimChars l).reverse := by
    rw [hA, List.reverse_reverse]
    exact dropWhile_idem isWsChar (l.dropWhile isWsChar).reverse
  rw [h2, List.reverse_reverse]

theorem foldl_insertIfNew_nodup {α : Type} [DecidableEq α] :
    ∀ (l acc : List α), acc.Nodup → (l.foldl insertIfNew acc).Nodup
  | [], acc, ha => by simpa using ha
  | a :: l, acc, ha => by
    rw [List.foldl_cons]
    apply foldl_insertIfNew_nodup l
    unfold insertIfNew
    by_cases hm : a ∈ acc
    · rw [if_pos hm]; exact ha
    · rw [if_neg hm]
      rw [List.nodup_append]
      refine ⟨ha, List.nodup_singleton a, ?_⟩
      intro x hx hxa
      rw [List.mem_singleton] at hxa
      subst hxa
      exact hm hx

theorem foldl_insertIfNew_mem {α : Type} [DecidableEq α] :
    ∀ (l acc : List α) (x : α), x ∈ l.foldl insertIfNew acc → x ∈ acc ∨ x ∈ l
  | [], acc, x, h => Or.inl (by simpa using h)
  | a :: l, acc, x, h => by
    rw [List.foldl_cons] at h
    rcases foldl_insertIfNew_mem l (insertIfNew acc a) x h with h1 | h1
    · unfold insertIfNew at h1
      by_cases hm : a ∈ acc
      · rw [if_pos hm] at h1
        exact Or.inl h1
      · rw [if_neg hm] at h1
        rcases List.mem_append.mp h1 with h2 | h2
        · exact Or.inl h2
        · rw [List.mem_singleton] at h2
          exact Or.inr (by rw [h2]; exact List.mem_cons_self a l)
    · exact Or.inr (List.mem_cons_of_mem a h1)

theorem speakersOf_trimmed (script : String) (x : List Char)
    (hx : x ∈ speakersOf script) : trimChars x = x := by
  unfold speakersOf dedupFirst at hx
  have hx2 := (foldl_insertIfNew_mem _ [] x hx).resolve_left (by simp)
  rw [List.mem_map] at hx2
  rcases hx2 with ⟨m, _, hm⟩
  rw [← hm]
  exact trimChars_idem m.dropLast

/-! The claims about the voice-assignment resolver. -/

/-- C3: in two-speaker resolution the resolver fails with
`MissingSpeakerLabels` exactly when the script has no match of the
speaker-label regex; otherwise it fails with `SpeakerCountMismatch` exactly
when the number of distinct labels is not 2; otherwise it fails with
`GenderCountMismatch` exactly when the parsed gender list is non-empty with
length other than 2; and a hint parsing to the empty list never causes a
`GenderCountMismatch` failure. -/
theorem c3_two_speaker_failures (script hint : String) :
    (generateSpeech script 2 hint = SpeechResult.err SpeechError.MissingSpeakerLabels
        ↔ labelMatches script = [])
  ∧ (labelMatches script ≠ [] →
      (generateSpeech script 2 hint = SpeechResult.err SpeechError.SpeakerCountMismatch
        ↔ (speakersOf script).length ≠ 2))
  ∧ (labelMatches script ≠ [] → (speakersOf script).length = 2 →
      (generateSpeech script 2 hint = SpeechResult.err SpeechError.GenderCountMismatch
        ↔ parseGenders hint ≠ [] ∧ (parseGenders hint).length ≠ 2))
  ∧ (parseGenders hint = [] →
      generateSpeech script 2 hint ≠ SpeechResult.err SpeechError.GenderCountMismatch) := by
  have h1 : ¬ ((2 : Int) ≤ 1) := by norm_num
  have h2 : ¬ ((2 : Int) ≠ 2) := by norm_num
  unfold generateSpeech
  rw [if_neg h1, if_neg h2]
  refine ⟨?_, ?_, ?_, ?_⟩
  · constructor
    · intro he
      by_cases hm : labelMatches script = []
      · exact hm
      · rw [if_neg hm] at he
        split_ifs at he <;> simp_all
    · intro hm
      rw [if_pos hm]
  · intro hm
    rw [if_neg hm]
    by_cases hs : (speakersOf script).length ≠ 2
    · rw [if_pos hs]
      simp [hs]
    · rw [if_neg hs]
      constructor
      · intro he
        split_ifs at he <;> simp_all
      · intro hcon
        exact absurd hcon hs
  · intro hm hs
    rw [if_neg hm, if_neg (by omega : ¬ (speakersOf script).length ≠ 2)]
    by_cases hg : 0 < (parseGenders hint).length ∧ (parseGenders hint).length ≠ 2
    · rw [if_pos hg]
      rw [List.length_pos] at hg
      simp [hg]
    · rw [if_neg hg]
      constructor
      · intro he
        simp at he
      · intro hcon
        rcases hcon with ⟨hne, h2c⟩
        exact absurd ⟨List.length_pos.mpr hne, h2c⟩ hg
  · intro hgnil he
    by_cases hm : labelMatches script = []
    · rw [if_pos hm] at he
      simp at he
    · rw [if_neg hm] at he
      split_ifs at he <;> simp_all

theorem c3_two_speaker_failures_witness :
    generateSpeech "hello" 2 "" = SpeechResult.err SpeechError.MissingSpeakerLabels :=
  (c3_two_speaker_failures "hello" "").1.mpr (by decide)

/-- C4: `parseGenders` computes exactly the specification's gender-phrase
grammar (`specGenderGrammar`, running count starting at 1) applied to the
normalized, whitespace/comma-split token list, and the spec's examples hold:
"1 nam 1 nu" parses to `[male, female]`, "1 nam 1 nam 1 nu" to
`[male, male, female]`. -/
theorem c4_gender_grammar (s : String) :
    parseGenders s = specGenderGrammar 1 (tokensOf (normalize s))
  ∧ parseGenders "1 nam 1 nu" = [Gender.male, Gender.female]
  ∧ parseGenders "1 nam 1 nam 1 nu" = [Gender.male, Gender.male, Gender.female] :=
  ⟨parseGenders_eq s, by decide, by decide⟩

/-- C5 counterexample: the hint "woman" consists solely of female-indicating
tokens (its only token starts with the female prefix "woman" and with no male
prefix), yet the single-speaker resolver returns the default male voice
"Puck", because the code tests substring containment of "man" rather than
token-level containment; this falsifies the claim that hints containing only
female-indicating words get the default female voice. -/
theorem c5_single_voice_counterexample :
    (∀ t ∈ tokensOf (normalize "woman"), isMaleTok t = false ∧ isFemaleTok t = true)
  ∧ resolveSingleVoice "woman" = "Puck"
  ∧ ("Puck" : String) ≠ "Kore" := by decide

/-- C5 (amended): the single-speaker resolver returns the default male voice
"Puck" exactly when the normalized hint contains "nam" or "man" as a
substring (so also for hints such as "woman" that merely contain "man"
inside a word), and the default female voice "Kore" otherwise, including the
empty hint; `resolveSingleVoice ""` is "Kore" and both "1 nam" and "man"
give "Puck". -/
theorem c5_single_voice (hint : String) :
    (resolveSingleVoice hint = "Puck"
      ↔ ("nam".toList <:+: normalize hint ∨ "man".toList <:+: normalize hint))
  ∧ (resolveSingleVoice hint = "Puck" ∨ resolveSingleVoice hint = "Kore")
  ∧ resolveSingleVoice "" = "Kore"
  ∧ resolveSingleVoice "1 nam" = "Puck"
  ∧ resolveSingleVoice "man" = "Puck"
  ∧ resolveSingleVoice "woman" = "Puck" := by
  have hiff : (containsSub (normalize hint) "nam".toList
        || containsSub (normalize hint) "man".toList) = true
      ↔ ("nam".toList <:+: normalize hint ∨ "man".toList <:+: normalize hint) := by
    rw [Bool.or_eq_true, containsSub_iff, containsSub_iff]
  refine ⟨?_, ?_, by decide, by decide, by decide, by decide⟩
  · unfold resolveSingleVoice
    by_cases hb : (containsSub (normalize hint) "nam".toList
        || containsSub (normalize hint) "man".toList) = true
    · rw [if_pos hb]
      simp only [true_iff]
      exact hiff.mp hb
    · rw [if_neg hb]
      constructor
      · intro hk
        exact absurd hk (by decide)
      · intro hin
        exact absurd (hiff.mpr hin) hb
  · unfold resolveSingleVoice
    by_cases hb : (containsSub (normalize hint) "nam".toList
        || containsSub (normalize hint) "man".toList) = true
    · rw [if_pos hb]
      exact Or.inl rfl
    · rw [if_neg hb]
      exact Or.inr rfl

theorem c5_single_voice_witness : resolveSingleVoice "1 nam" = "Puck" :=
  (c5_single_voice "1 nam").2.2.2.1

/-- C6: for every script whose distinct labels are exactly `[a, b]` (in order
of first appearance) and an empty gender hint, the resolver pairs the first
speaker with `male` and the head of the male pool ("Puck") and the second
with `female` and the head of the female pool ("Kore"). -/
theorem c6_default_two_speaker (script : String) (a b : List Char)
    (h : speakersOf script = [a, b]) :
    generateSpeech script 2 ""
      = SpeechResult.ok (SpeechConfig.multi [(a, "Puck"), (b, "Kore")]) := by
  have h1 : ¬ ((2 : Int) ≤ 1) := by norm_num
  have h2 : ¬ ((2 : Int) ≠ 2) := by norm_num
  have hm : ¬ (labelMatches script = []) := by
    intro hnil
    unfold speakersOf at h
    rw [hnil] at h
    simp [dedupFirst] at h
  have hg : parseGenders "" = [] := by decide
  unfold generateSpeech
  rw [if_neg h1, if_neg h2, if_neg hm]
  simp only [h, hg]
  simp [assignLoop, MALE_VOICES, FEMALE_VOICES, List.getD]

theorem c6_default_two_speaker_witness :
    generateSpeech "A: hi\nB: hello\nA: bye" 2 ""
      = SpeechResult.ok (SpeechConfig.multi [(['A'], "Puck"), (['B'], "Kore")]) :=
  c6_default_two_speaker "A: hi\nB: hello\nA: bye" ['A'] ['B'] (by decide)

/-- C7: voice selection rotates two independent per-gender indices, so two
speakers assigned the same gender receive the first two (distinct) entries of
that gender's pool in pool order — "Puck" then "Charon" for two males (e.g.
produced by the hint "2 nam"), "Kore" then "Zephyr" for two females — and
both pools have at least two entries. -/
theorem c7_voice_rotation (script hint : String) (a b : List Char)
    (h : speakersOf script = [a, b]) :
    (parseGenders hint = [Gender.male, Gender.male] →
      generateSpeech script 2 hint
        = SpeechResult.ok (SpeechConfig.multi [(a, "Puck"), (b, "Charon")]))
  ∧ (parseGenders hint = [Gender.female, Gender.female] →
      generateSpeech script 2 hint
        = SpeechResult.ok (SpeechConfig.multi [(a, "Kore"), (b, "Zephyr")]))
  ∧ parseGenders "2 nam" = [Gender.male, Gender.male]
  ∧ ("Puck" : String) ≠ "Charon" ∧ ("Kore" : String) ≠ "Zephyr"
  ∧ 2 ≤ MALE_VOICES.length ∧ 2 ≤ FEMALE_VOICES.length := by
  have h1 : ¬ ((2 : Int) ≤ 1) := by norm_num
  have h2 : ¬ ((2 : Int) ≠ 2) := by norm_num
  have hm : ¬ (labelMatches script = []) := by
    intro hnil
    unfold speakersOf at h
    rw [hnil] at h
    simp [dedupFirst] at h
  refine ⟨?_, ?_, by decide, by decide, by decide, by decide, by decide⟩
  · intro hg
    unfold generateSpeech
    rw [if_neg h1, if_neg h2, if_neg hm]
    simp only [h, hg]
    simp [assignLoop, MALE_VOICES, FEMALE_VOICES, List.getD]
  · intro hg
    unfold generateSpeech
    rw [if_neg h1, if_neg h2, if_neg hm]
    simp only [h, hg]
    simp [assignLoop, MALE_VOICES, FEMALE_VOICES, List.getD]

theorem c7_voice_rotation_witness :
    generateSpeech "A: x\nB: y" 2 "2 nam"
      = SpeechResult.ok (SpeechConfig.multi [(['A'], "Puck"), (['B'], "Charon")]) :=
  (c7_voice_rotation "A: x\nB: y" "2 nam" ['A'] ['B'] (by decide)).1 (by decide)

/-- C9: speaker labels are trimmed before deduplication — the distinct-label
list never contains duplicates, each of its entries is trim-fixed, labels
differing only in surrounding whitespace collapse to one speaker (so
"A: hi\nA : bye" yields the single speaker `A` and then fails the two-speaker
count check), and the labels in the output pairing are the trimmed forms
(the match "A :" of "A : hi" is paired as `A`). -/
theorem c9_label_trimming :
    (∀ script : String, (speakersOf script).Nodup)
  ∧ (∀ (script : String) (x : List Char), x ∈ speakersOf script → trimChars x = x)
  ∧ speakersOf "A: hi\nA : bye" = [['A']]
  ∧ generateSpeech "A: hi\nA : bye" 2 ""
      = SpeechResult.err SpeechError.SpeakerCountMismatch
  ∧ generateSpeech "A : hi\nB: yo" 2 ""
      = SpeechResult.ok (SpeechConfig.multi [(['A'], "Puck"), (['B'], "Kore")]) := by
  refine ⟨?_, ?_, by decide, by decide, by decide⟩
  · intro script
    unfold speakersOf dedupFirst
    exact foldl_insertIfNew_nodup _ [] List.nodup_nil
  · exact fun script x hx => speakersOf_trimmed script x hx

theorem c9_label_trimming_witness : trimChars ['A'] = ['A'] :=
  c9_label_trimming.2.1 "A: hi" ['A'] (by decide)

/-- C10: `generateSpeech` takes the single-voice path for every integer
speaker count at most 1 (including 0 and negatives) and raises no
speaker-count error there; its unsupported-count error occurs exactly for
counts of 3 or more; and the guard rejecting counts below 1 or above 2 lives
in the UI handler `handleGenerateAudio`, which accepts exactly the
counts 1 and 2. -/
theorem c10_voice_count_dispatch (script hint : String) (n : Int) :
    (n ≤ 1 → generateSpeech script n hint
        = SpeechResult.ok (SpeechConfig.single (resolveSingleVoice hint)))
  ∧ (generateSpeech script n hint = SpeechResult.err SpeechError.UnsupportedVoiceCount
        ↔ 3 ≤ n)
  ∧ (handleGuardRejects n = false ↔ 1 ≤ n ∧ n ≤ 2) := by
  refine ⟨?_, ?_, ?_⟩
  · intro hn
    unfold generateSpeech
    rw [if_pos hn]
  · unfold generateSpeech
    by_cases hn : n ≤ 1
    · rw [if_pos hn]
      constructor
      · intro h
        simp at h
      · intro h
        omega
    · rw [if_neg hn]
      by_cases hne : n ≠ 2
      · rw [if_pos hne]
        constructor
        · intro _
          omega
        · intro _
          rfl
      · rw [if_neg hne]
        push_neg at hne
        subst hne
        constructor
        · intro h
          split_ifs at h <;> simp_all
        · intro h
          omega
  · unfold handleGuardRejects
    simp only [Bool.or_eq_false_iff, decide_eq_false_iff_not]
    omega

theorem c10_voice_count_dispatch_witness :
    generateSpeech "x" 0 "" = SpeechResult.ok (SpeechConfig.single (resolveSingleVoice "")) :=
  (c10_voice_count_dispatch "x" "" 0).1 (by norm_num)

end Ie

